import Mathlib

/-!
Shallow embedding of the DCA backtest engine in `streamlit_app.py`
(pue_strategy repository).

Conventions of the embedding:
* floats are modelled as `ℚ` (the claims speak of exact arithmetic);
* `pandas` timestamps are modelled by a `Date` structure (year, month, day)
  compared through the lexicographic key `year*10000 + month*100 + day`,
  which agrees with calendar order on all in-range dates;
* `pd.DateOffset(months=9)` is modelled by `Date.addMonths` with pandas
  semantics: add to the month count, clip the day to the length of the
  target month;
* the undefined `pct_change` value of the first row (a float NaN) is
  modelled as `Option.none` in the derived series; the simulator consumes
  windows whose returns have been erased to plain `ℚ` with an arbitrary
  junk value substituted for `none` (claim C10 proves the junk value is
  never read by a simulation of a well-formed series, which justifies the
  erasure).
-/

/-- Calendar date, mirroring the `Date` column after parsing. -/
structure Date where
  year : Nat
  month : Nat
  day : Nat
deriving DecidableEq, Repr, Inhabited

/-- Lexicographic comparison key; agrees with calendar order whenever
`month ≤ 12` and `day ≤ 31`, which holds for parsed dates and for the
results of `Date.addMonths`. -/
def Date.key (d : Date) : Nat :=
  d.year * 10000 + d.month * 100 + d.day

def isLeapYear (y : Nat) : Bool :=
  (y % 4 == 0 && y % 100 != 0) || y % 400 == 0

def daysInMonth (y m : Nat) : Nat :=
  if m = 2 then (if isLeapYear y then 29 else 28)
  else if m = 4 ∨ m = 6 ∨ m = 9 ∨ m = 11 then 30
  else 31

/-- Model of `pd.DateOffset(months=n)`: calendar-month arithmetic, day-of-month
preserved where possible, otherwise clipped to the end of the target
month. -/
def Date.addMonths (n : Nat) (d : Date) : Date :=
  let t := d.month - 1 + n
  let y := d.year + t / 12
  let m := t % 12 + 1
  { year := y, month := m, day := min d.day (daysInMonth y m) }

/-- One raw CSV row: columns `Date`, `SPX`, `LIBOR`. -/
structure Row where
  date : Date
  spx : ℚ
  libor : ℚ
deriving DecidableEq, Repr, Inhabited

/-- Model of `data.sort_values('Date')` (stable insertion sort by date; with the
unique dates assumed of the input this coincides with any sort). -/
def insertByDate (r : Row) : List Row → List Row
  | [] => [r]
  | s :: rest =>
    if r.date.key ≤ s.date.key then r :: s :: rest else s :: insertByDate r rest

def sortByDate : List Row → List Row
  | [] => []
  | r :: rest => insertByDate r (sortByDate rest)

/-- Lines 10–11: load the series and sort it by date (the embedding takes
the parsed rows as given; file I/O is out of scope). -/
def loadData (rows : List Row) : List Row :=
  sortByDate rows

/-- A row of the derived series: `SPX_return` (`none` models the NaN that
`pct_change` puts on the first row) and `LIBOR_daily = LIBOR / 360`. -/
structure DerivedRow where
  date : Date
  spx_return : Option ℚ
  libor_daily : ℚ
deriving DecidableEq, Repr, Inhabited

/-- Lines 14–15 for all rows after the first: each row's return is
computed against its predecessor. -/
def deriveTail (prev : Row) : List Row → List DerivedRow
  | [] => []
  | r :: rest =>
    { date := r.date, spx_return := some ((r.spx - prev.spx) / prev.spx),
      libor_daily := r.libor / 360 } :: deriveTail r rest

/-- Lines 14–15: `data['SPX_return'] = data['SPX'].pct_change()` and
`data['LIBOR_daily'] = data['LIBOR'] / 360`. -/
def derive : List Row → List DerivedRow
  | [] => []
  | r :: rest =>
    { date := r.date, spx_return := none, libor_daily := r.libor / 360 }
      :: deriveTail r rest

/-- A window row as the simulator reads it: the NaN of an undefined
return has been erased to a junk value `j` (never read, by claim C10). -/
structure SimRow where
  spx_return : ℚ
  libor_daily : ℚ
deriving DecidableEq, Repr, Inhabited

def eraseUndef (j : ℚ) (w : List DerivedRow) : List SimRow :=
  w.map fun r => { spx_return := r.spx_return.getD j, libor_daily := r.libor_daily }

/-- Portfolio state during one window simulation (lines 52–60 initialise
it, lines 62–84 update it). -/
structure PortfolioState where
  invested_cash : ℚ
  uninvested_cash : ℚ
  portfolio_values : List ℚ
  max_value : ℚ
  drawdowns : List ℚ
deriving DecidableEq, Repr

/-- Lines 52–58: `total_cash = 100.0`, the split by the fraction `x`, the
singleton trajectory `[total_cash]`, peak `total_cash`, drawdowns `[0]`. -/
def initState (x : ℚ) : PortfolioState :=
  { invested_cash := 100 * x
    uninvested_cash := 100 * (1 - x)
    portfolio_values := [100]
    max_value := 100
    drawdowns := [0] }

def num_invest_days (w : List SimRow) : Nat :=
  w.length - 1

/-- Line 60: the value `daily_investment = uninvested_cash / num_invest_days if
num_invest_days > 0 else 0` (with the freshly initialised
`uninvested_cash = 100 * (1 - x)`). -/
def daily_investment (w : List SimRow) (x : ℚ) : ℚ :=
  if 0 < num_invest_days w then 100 * (1 - x) / (num_invest_days w : ℚ) else 0

/-- Lines 62–84, body of one iteration: optional daily investment, LIBOR
accrual of the uninvested cash at the previous row's daily rate, SPX
compounding of the invested cash at the current row's return, append the
total value, update the running peak and append the drawdown. -/
def simStep (d libor_rate spx_return : ℚ) (s : PortfolioState) : PortfolioState :=
  let invested1 := if 0 < s.uninvested_cash then s.invested_cash + d else s.invested_cash
  let uninvested1 := if 0 < s.uninvested_cash then s.uninvested_cash - d else s.uninvested_cash
  let uninvested2 := uninvested1 + uninvested1 * libor_rate
  let invested2 := invested1 + invested1 * spx_return
  let total_value := invested2 + uninvested2
  let new_max := if s.max_value < total_value then total_value else s.max_value
  { invested_cash := invested2
    uninvested_cash := uninvested2
    portfolio_values := s.portfolio_values ++ [total_value]
    max_value := new_max
    drawdowns := s.drawdowns ++ [(new_max - total_value) / new_max] }

/-- The loop of line 62 after its first `k` iterations: iteration `i`
(1-based) reads `LIBOR_daily` at window index `i - 1` and `SPX_return` at
window index `i`. -/
def simSteps (w : List SimRow) (d : ℚ) (s : PortfolioState) : Nat → PortfolioState
  | 0 => s
  | k + 1 =>
    simStep d (w.getD k default).libor_daily (w.getD (k + 1) default).spx_return
      (simSteps w d s k)

/-- State after the first `k` iterations of the window loop. -/
def stepState (w : List SimRow) (x : ℚ) (k : Nat) : PortfolioState :=
  simSteps w (daily_investment w x) (initState x) k

/-- State when the window loop has run to completion. -/
def finalState (w : List SimRow) (x : ℚ) : PortfolioState :=
  stepState w x (w.length - 1)

/-- Python's `max` on a nonempty list (drawdown lists always start with
`0`, so the `[]` case is never reached). -/
def maxList : List ℚ → ℚ
  | [] => 0
  | a :: l => l.foldl max a

structure SimResult where
  total_return : ℚ
  max_drawdown : ℚ
deriving DecidableEq, Repr

/-- Lines 87–89: `total_return = (portfolio_values[-1] - total_cash) /
total_cash` and `max(drawdowns)`. -/
def simulate (w : List SimRow) (x : ℚ) : SimResult :=
  let s := finalState w x
  { total_return := (s.portfolio_values.getLast?.getD 0 - 100) / 100
    max_drawdown := maxList s.drawdowns }

/-- Model of `range(0, len, N)` of line 45. -/
def rangeStep (len N : Nat) : List Nat :=
  (List.range ((len + N - 1) / N)).map (· * N)

/-- Lines 46–48: the horizon-bounded window starting at sampled index
`idx`: all rows with date in `[start_date, start_date + 9 months]`. -/
def periodData (d : List DerivedRow) (idx : Nat) : List DerivedRow :=
  let start := (d.getD idx default).date
  let stop := start.addMonths 9
  d.filter fun r => start.key ≤ r.date.key && r.date.key ≤ stop.key

/-- Lines 45–89: the start-date sampling loop for one fraction `x`,
skipping windows with fewer than 2 observations; the `returns` and
`max_drawdowns` accumulators are combined into one list of results. -/
def runFraction (d : List DerivedRow) (x : ℚ) (N : Nat) : List SimResult :=
  (rangeStep d.length N).filterMap fun idx =>
    let pd := periodData d idx
    if 2 ≤ pd.length then some (simulate (eraseUndef 0 pd) x) else none

/-- The whole per-fraction pipeline of the script: load (sort), derive
returns, run the sampling loop. -/
def pipeline (rows : List Row) (x : ℚ) (N : Nat) : List SimResult :=
  runFraction (derive (loadData rows)) x N

/-- Taken from the spec's words (§4.3), for comparison with
`runFraction`: the sampled start dates are the series indices
`0, N, 2N, …`. -/
def specSampledStarts (len N : Nat) : List Nat :=
  (List.range len).filter fun i => i % N == 0

/-- Taken from the spec's words (§4.3, P5): the valid starts are the
sampled starts whose horizon-bounded slice has at least 2 observations. -/
def specValidStarts (d : List DerivedRow) (N : Nat) : List Nat :=
  (specSampledStarts d.length N).filter fun idx =>
    decide (2 ≤ (periodData d idx).length)

/-- Taken from the spec's words (§4.3): one result per valid start, in
ascending start order. -/
def specDriver (d : List DerivedRow) (x : ℚ) (N : Nat) : List SimResult :=
  (specValidStarts d N).map fun idx => simulate (eraseUndef 0 (periodData d idx)) x

/-- Model of `np.mean`: NaN on an empty array, modelled as `none`. -/
def npMean (l : List ℚ) : Option ℚ :=
  if l.isEmpty then none else some (l.sum / (l.length : ℚ))

/-- Lines 100–103: the average 9-month return displayed for a fraction. -/
def displayedMean (d : List DerivedRow) (x : ℚ) (N : Nat) : Option ℚ :=
  npMean ((runFraction d x N).map SimResult.total_return)

/-- Lines 109–120: the long-format plot data, one `(fraction,
max_drawdown)` row per simulation result. -/
def plotRows (d : List DerivedRow) (xs : List ℚ) (N : Nat) : List (ℚ × ℚ) :=
  xs.flatMap fun x => (runFraction d x N).map fun r => (x, r.max_drawdown)

/-- Line 138: the distinct fraction categories present in the plot data;
only these receive percentile annotations in lines 140–187. -/
def plotCats (pr : List (ℚ × ℚ)) : List ℚ :=
  (pr.map Prod.fst).dedup

/-! ## Concrete inputs used by witnesses and counterexamples -/

/-- The spec's concrete scenario: 3 daily observations, index levels
`[100, 110, 99]`, zero short rate. -/
def rowsC2 : List Row :=
  [ { date := ⟨2020, 1, 1⟩, spx := 100, libor := 0 },
    { date := ⟨2020, 1, 2⟩, spx := 110, libor := 0 },
    { date := ⟨2020, 1, 3⟩, spx := 99, libor := 0 } ]

/-- The single window covering all 3 observations of `rowsC2`. -/
def winC2 : List SimRow := eraseUndef 0 (derive (loadData rowsC2))

/-! ## C1: order of the state updates in one loop iteration -/

/-- The update equations the claim states for step `i`: optional move of
the daily investment, accrual of the uninvested cash at the previous
row's daily rate, compounding of the invested cash at the current row's
return, and appending `invested + uninvested` to the trajectory. -/
def StepEquations (w : List SimRow) (x : ℚ) (i : Nat) : Prop :=
  let s := stepState w x (i - 1)
  let d := daily_investment w x
  let invested1 := if 0 < s.uninvested_cash then s.invested_cash + d else s.invested_cash
  let uninvested1 := if 0 < s.uninvested_cash then s.uninvested_cash - d else s.uninvested_cash
  let uninvested2 := uninvested1 + uninvested1 * (w.getD (i - 1) default).libor_daily
  let invested2 := invested1 + invested1 * (w.getD i default).spx_return
  (stepState w x i).invested_cash = invested2 ∧
  (stepState w x i).uninvested_cash = uninvested2 ∧
  (stepState w x i).portfolio_values = s.portfolio_values ++ [invested2 + uninvested2]

/-- C1: for every valid window (length ≥ 2) and fraction in `[0, 1]`,
each step `i` from `1` to `len(window) - 1` updates the state in exactly
the claimed order: conditional move of `daily_investment`, accrual of the
uninvested cash by the previous row's `LIBOR_daily`, compounding of the
invested cash by the current row's `SPX_return`, then appending
`invested_cash + uninvested_cash` to the trajectory. -/
theorem step_update_order (w : List SimRow) (x : ℚ) (hw : 2 ≤ w.length)
    (hx0 : 0 ≤ x) (hx1 : x ≤ 1) (i : Nat) (hi1 : 1 ≤ i)
    (hi2 : i ≤ w.length - 1) : StepEquations w x i := by
  obtain ⟨k, rfl⟩ : ∃ k, i = k + 1 := ⟨i - 1, by omega⟩
  exact ⟨rfl, rfl, rfl⟩

/-- Witness for C1 on the concrete 3-row window at step 1. -/
theorem step_update_order_witness :
    (2 ≤ winC2.length ∧ (0 : ℚ) ≤ 1/2 ∧ (1 : ℚ)/2 ≤ 1 ∧
      1 ≤ 1 ∧ 1 ≤ winC2.length - 1) ∧ StepEquations winC2 (1/2) 1 :=
  ⟨⟨by decide, by norm_num, by norm_num, le_refl 1, by decide⟩,
    step_update_order winC2 (1/2) (by decide) (by norm_num) (by norm_num) 1
      (le_refl 1) (by decide)⟩

/-! ## C2: the spec's hand-computed concrete trace -/

/-- C2: on the window with index levels `[100, 110, 99]`, zero short
rate, fraction `1/2` (`daily_investment = 25`): after step 1 the invested
cash is `82.5` and the uninvested cash `25`; after step 2 they are
`96.75` and `0`; the total return is `-0.0325` and the maximum drawdown
`(107.5 - 96.75) / 107.5 = 0.1`, exactly over exact arithmetic; the
sampling loop with the whole series as the single window returns exactly
this result. -/
theorem concrete_trace :
    (stepState winC2 (1/2) 1).invested_cash = 165/2 ∧
    (stepState winC2 (1/2) 1).uninvested_cash = 25 ∧
    (stepState winC2 (1/2) 2).invested_cash = 387/4 ∧
    (stepState winC2 (1/2) 2).uninvested_cash = 0 ∧
    (simulate winC2 (1/2)).total_return = -13/400 ∧
    (simulate winC2 (1/2)).max_drawdown = 1/10 ∧
    runFraction (derive (loadData rowsC2)) (1/2) 3 =
      [{ total_return := -13/400, max_drawdown := 1/10 }] := by
  norm_num [stepState, simSteps, simStep, initState, daily_investment,
    num_invest_days, winC2, eraseUndef, derive, deriveTail, loadData,
    sortByDate, insertByDate, Date.key, List.getD, simulate, finalState,
    maxList, runFraction, rangeStep, periodData, Date.addMonths,
    daysInMonth, isLeapYear, List.filterMap, List.filter]

/-! ## Shared helper lemmas about the window loop -/

lemma stepState_succ (w : List SimRow) (x : ℚ) (n : Nat) :
    stepState w x (n + 1) =
      simStep (daily_investment w x) (w.getD n default).libor_daily
        (w.getD (n + 1) default).spx_return (stepState w x n) := rfl

lemma simStep_invested (d lb r : ℚ) (s : PortfolioState) :
    (simStep d lb r s).invested_cash =
      (if 0 < s.uninvested_cash then s.invested_cash + d else s.invested_cash) +
        (if 0 < s.uninvested_cash then s.invested_cash + d else s.invested_cash) * r := rfl

lemma simStep_uninvested (d lb r : ℚ) (s : PortfolioState) :
    (simStep d lb r s).uninvested_cash =
      (if 0 < s.uninvested_cash then s.uninvested_cash - d else s.uninvested_cash) +
        (if 0 < s.uninvested_cash then s.uninvested_cash - d else s.uninvested_cash) * lb := rfl

lemma simStep_values (d lb r : ℚ) (s : PortfolioState) :
    (simStep d lb r s).portfolio_values =
      s.portfolio_values ++
        [(simStep d lb r s).invested_cash + (simStep d lb r s).uninvested_cash] := rfl

lemma simStep_drawdowns_append (d lb r : ℚ) (s : PortfolioState) :
    ∃ a, (simStep d lb r s).drawdowns = s.drawdowns ++ [a] :=
  ⟨_, rfl⟩

lemma values_length (w : List SimRow) (x : ℚ) :
    ∀ k, (stepState w x k).portfolio_values.length = k + 1 := by
  intro k
  induction k with
  | zero => rfl
  | succ n ih =>
    rw [stepState_succ, simStep_values, List.length_append, ih]
    rfl

lemma values_getD (w : List SimRow) (x : ℚ) :
    ∀ m k, k ≤ m →
      (stepState w x m).portfolio_values.getD k 0 =
        (stepState w x k).invested_cash + (stepState w x k).uninvested_cash := by
  intro m
  induction m with
  | zero =>
    intro k hk
    have hk0 : k = 0 := by omega
    subst hk0
    show ([100] : List ℚ).getD 0 0 = 100 * x + 100 * (1 - x)
    simp [List.getD]
    ring
  | succ n ih =>
    intro k hk
    rcases Nat.lt_or_ge k (n + 1) with h | h
    · rw [stepState_succ, simStep_values,
        List.getD_append _ _ _ _ (by rw [values_length]; omega)]
      exact ih k (by omega)
    · have hk2 : k = n + 1 := by omega
      subst hk2
      rw [stepState_succ, simStep_values,
        List.getD_append_right _ _ _ _ (by rw [values_length])]
      rw [values_length]
      simp [List.getD, stepState_succ]

/-! ## C6: trajectory conservation -/

/-- The property C6 claims: every recorded trajectory entry equals
`invested_cash + uninvested_cash` of the state at that step, and the
entry at step 0 is `100 = 100 * fraction + 100 * (1 - fraction)`. -/
def TrajectoryConservation (w : List SimRow) (x : ℚ) : Prop :=
  (∀ k, k ≤ w.length - 1 →
    (finalState w x).portfolio_values.getD k 0 =
      (stepState w x k).invested_cash + (stepState w x k).uninvested_cash) ∧
  (finalState w x).portfolio_values.getD 0 0 = 100 * x + 100 * (1 - x)

/-- C6: for every valid window, every fraction in `[0, 1]` and every
step, the trajectory entry recorded at that step equals
`invested_cash + uninvested_cash` at that step, exactly; at step 0 the
recorded value is `100 * fraction + 100 * (1 - fraction)`. -/
theorem trajectory_conservation (w : List SimRow) (x : ℚ) (hw : 2 ≤ w.length)
    (hx0 : 0 ≤ x) (hx1 : x ≤ 1) : TrajectoryConservation w x := by
  constructor
  · intro k hk
    exact values_getD w x (w.length - 1) k hk
  · show (stepState w x (w.length - 1)).portfolio_values.getD 0 0 = _
    rw [values_getD w x (w.length - 1) 0 (by omega)]
    rfl

/-- Witness for C6 on the concrete 3-row window. -/
theorem trajectory_conservation_witness :
    (2 ≤ winC2.length ∧ (0 : ℚ) ≤ 1/2 ∧ (1 : ℚ)/2 ≤ 1) ∧
      TrajectoryConservation winC2 (1/2) :=
  ⟨⟨by decide, by norm_num, by norm_num⟩,
    trajectory_conservation winC2 (1/2) (by decide) (by norm_num) (by norm_num)⟩

/-! ## C7: drawdown bookkeeping -/

lemma le_ite_max (a b : ℚ) : a ≤ if a < b then b else a := by
  split
  · exact le_of_lt (by assumption)
  · exact le_refl a

lemma max_value_le_simStep (d lb r : ℚ) (s : PortfolioState) :
    s.max_value ≤ (simStep d lb r s).max_value :=
  le_ite_max _ _

lemma drawdowns_head (w : List SimRow) (x : ℚ) :
    ∀ k, ∃ t, (stepState w x k).drawdowns = 0 :: t := by
  intro k
  induction k with
  | zero => exact ⟨[], rfl⟩
  | succ n ih =>
    obtain ⟨t, ht⟩ := ih
    obtain ⟨a, ha⟩ := simStep_drawdowns_append (daily_investment w x)
      (w.getD n default).libor_daily (w.getD (n + 1) default).spx_return
      (stepState w x n)
    refine ⟨t ++ [a], ?_⟩
    rw [stepState_succ, ha, ht]
    rfl

lemma le_foldl_max : ∀ (l : List ℚ) (a : ℚ), a ≤ l.foldl max a := by
  intro l
  induction l with
  | nil => intro a; exact le_refl a
  | cons b t ih => intro a; exact le_trans (le_max_left a b) (ih (max a b))

/-- The property C7 claims: the first recorded drawdown is `0`, the
running-peak sequence is non-decreasing across steps, and the reported
maximum drawdown is non-negative. -/
def DrawdownBookkeeping (w : List SimRow) (x : ℚ) : Prop :=
  (finalState w x).drawdowns.getD 0 1 = 0 ∧
  (∀ k, k < w.length - 1 →
    (stepState w x k).max_value ≤ (stepState w x (k + 1)).max_value) ∧
  0 ≤ (simulate w x).max_drawdown

/-- C7: for every simulated window, `drawdown[0] = 0`, the running peak
`max_value` is non-decreasing over the steps, and the reported
`max_drawdown` is always non-negative. -/
theorem drawdown_bookkeeping (w : List SimRow) (x : ℚ) (hw : 2 ≤ w.length) :
    DrawdownBookkeeping w x := by
  refine ⟨?_, ?_, ?_⟩
  · obtain ⟨t, ht⟩ := drawdowns_head w x (w.length - 1)
    show (stepState w x (w.length - 1)).drawdowns.getD 0 1 = 0
    rw [ht]
    rfl
  · intro k _
    rw [stepState_succ]
    exact max_value_le_simStep _ _ _ _
  · obtain ⟨t, ht⟩ := drawdowns_head w x (w.length - 1)
    show 0 ≤ maxList (stepState w x (w.length - 1)).drawdowns
    rw [ht]
    exact le_foldl_max t 0

/-- Witness for C7 on the concrete 3-row window. -/
theorem drawdown_bookkeeping_witness :
    2 ≤ winC2.length ∧ DrawdownBookkeeping winC2 (1/2) :=
  ⟨by decide, drawdown_bookkeeping winC2 (1/2) (by decide)⟩

/-! ## C8: boundary case fraction = 1 -/

lemma daily_investment_one (w : List SimRow) : daily_investment w 1 = 0 := by
  unfold daily_investment
  split <;> norm_num

lemma uninvested_zero_of_one (w : List SimRow) :
    ∀ k, (stepState w 1 k).uninvested_cash = 0 := by
  intro k
  induction k with
  | zero =>
    show (100 : ℚ) * (1 - 1) = 0
    norm_num
  | succ n ih =>
    rw [stepState_succ, simStep_uninvested, ih]
    norm_num

/-- Pure compounding of the window's index returns: the value after `k`
steps is `100 * ∏ i in 1..k, (1 + SPX_return[i])`. -/
def pureCompounding (w : List SimRow) (k : Nat) : ℚ :=
  100 * (((List.range k).map fun i => 1 + (w.getD (i + 1) default).spx_return).prod)

lemma invested_pure_of_one (w : List SimRow) :
    ∀ k, (stepState w 1 k).invested_cash = pureCompounding w k := by
  intro k
  induction k with
  | zero =>
    show (100 : ℚ) * 1 = pureCompounding w 0
    simp [pureCompounding]
  | succ n ih =>
    rw [stepState_succ, simStep_invested, uninvested_zero_of_one w n, ih]
    simp only [pureCompounding, List.range_succ, List.map_append, List.prod_append]
    norm_num
    ring

lemma simStep_lib_irrelevant (d lb lb' r : ℚ) (s : PortfolioState)
    (h : s.uninvested_cash = 0) : simStep d lb r s = simStep d lb' r s := by
  simp [simStep, h]

lemma stepState_one_congr (w w' : List SimRow)
    (hret : ∀ i, (w'.getD i default).spx_return = (w.getD i default).spx_return) :
    ∀ k, stepState w' 1 k = stepState w 1 k := by
  intro k
  induction k with
  | zero => rfl
  | succ n ih =>
    rw [stepState_succ, stepState_succ, ih, hret (n + 1),
      daily_investment_one w, daily_investment_one w']
    exact simStep_lib_irrelevant 0 ((w'.getD n default).libor_daily)
      ((w.getD n default).libor_daily) ((w.getD (n + 1) default).spx_return)
      (stepState w 1 n) (uninvested_zero_of_one w n)

lemma simulate_one_congr (w w' : List SimRow) (hlen : w'.length = w.length)
    (hret : ∀ i, (w'.getD i default).spx_return = (w.getD i default).spx_return) :
    simulate w' 1 = simulate w 1 := by
  simp only [simulate, finalState, hlen, stepState_one_congr w w' hret]

/-- The property C8 claims: with fraction 1 the uninvested cash starts
and stays at `0`, the daily investment is `0`, every trajectory entry is
the pure compounding `100 * ∏ (1 + SPX_return[i])`, and the short rate
has no effect on the simulation result. -/
def FullFractionBoundary (w : List SimRow) : Prop :=
  daily_investment w 1 = 0 ∧
  (∀ k, k ≤ w.length - 1 → (stepState w 1 k).uninvested_cash = 0) ∧
  (∀ k, k ≤ w.length - 1 →
    (finalState w 1).portfolio_values.getD k 0 = pureCompounding w k) ∧
  (∀ w' : List SimRow, w'.length = w.length →
    (∀ i, (w'.getD i default).spx_return = (w.getD i default).spx_return) →
    simulate w' 1 = simulate w 1)

/-- C8: with `fraction = 1`, for every valid window the uninvested cash
starts at `0` and stays `0`, the daily investment is `0` throughout, the
trajectory equals pure compounding of the window's index returns
(`100 * ∏ i in 1..k, (1 + SPX_return[i])` at step `k`), and the short
rate has no effect on the result. -/
theorem full_fraction_boundary (w : List SimRow) (hw : 2 ≤ w.length) :
    FullFractionBoundary w := by
  refine ⟨daily_investment_one w, fun k _ => uninvested_zero_of_one w k, ?_, ?_⟩
  · intro k hk
    show (stepState w 1 (w.length - 1)).portfolio_values.getD k 0 = _
    rw [values_getD w 1 (w.length - 1) k hk, uninvested_zero_of_one w k,
      invested_pure_of_one w k]
    ring
  · intro w' hlen hret
    exact simulate_one_congr w w' hlen hret

/-- Witness for C8 on the concrete 3-row window. -/
theorem full_fraction_boundary_witness :
    2 ≤ winC2.length ∧ FullFractionBoundary winC2 :=
  ⟨by decide, full_fraction_boundary winC2 (by decide)⟩

/-! ## C9: non-negativity of the uninvested cash -/

lemma daily_investment_nonneg (w : List SimRow) (x : ℚ) (hx1 : x ≤ 1) :
    0 ≤ daily_investment w x := by
  unfold daily_investment
  split
  · apply div_nonneg
    · nlinarith
    · exact Nat.cast_nonneg _
  · exact le_refl 0

lemma total_daily_eq (w : List SimRow) (x : ℚ) (hw : 2 ≤ w.length) :
    ((w.length - 1 : Nat) : ℚ) * daily_investment w x = 100 * (1 - x) := by
  have hnz : ((w.length - 1 : Nat) : ℚ) ≠ 0 := Nat.cast_ne_zero.mpr (by omega)
  unfold daily_investment num_invest_days
  rw [if_pos (by omega : 0 < w.length - 1), mul_comm, div_mul_cancel₀ _ hnz]

lemma uninvested_lower (w : List SimRow) (x : ℚ) (hw : 2 ≤ w.length)
    (hx1 : x ≤ 1)
    (hlib : ∀ i, i < w.length → 0 ≤ (w.getD i default).libor_daily) :
    ∀ k, k ≤ w.length - 1 →
      ((w.length - 1 - k : Nat) : ℚ) * daily_investment w x ≤
        (stepState w x k).uninvested_cash := by
  intro k
  induction k with
  | zero =>
    intro _
    rw [Nat.sub_zero, total_daily_eq w x hw]
    exact le_refl _
  | succ n ih =>
    intro hn1
    have ihn := ih (by omega)
    have hd := daily_investment_nonneg w x hx1
    have hlb : 0 ≤ (w.getD n default).libor_daily := hlib n (by omega)
    rw [stepState_succ, simStep_uninvested]
    set u := (stepState w x n).uninvested_cash with hu
    set d := daily_investment w x with hdd
    set c : ℚ := ((w.length - 1 - (n + 1) : Nat) : ℚ) with hc
    have hcoef : ((w.length - 1 - n : Nat) : ℚ) = c + 1 := by
      rw [hc]
      have e : w.length - 1 - n = (w.length - 1 - (n + 1)) + 1 := by omega
      rw [e]
      push_cast
      ring
    have hc0 : (0 : ℚ) ≤ c := by rw [hc]; exact Nat.cast_nonneg _
    rw [hcoef] at ihn
    have hcd0 : 0 ≤ c * d := mul_nonneg hc0 hd
    by_cases hpos : 0 < u
    · rw [if_pos hpos]
      have h1 : c * d ≤ u - d := by linarith
      have h2 : 0 ≤ u - d := by linarith
      have h3 : 0 ≤ (u - d) * (w.getD n default).libor_daily := mul_nonneg h2 hlb
      linarith
    · rw [if_neg hpos]
      push_neg at hpos
      have hu0 : u = 0 := le_antisymm hpos (by linarith)
      have hd0 : d = 0 := le_antisymm (by linarith) hd
      rw [hu0, hd0]
      norm_num

/-- The property C9 claims: the uninvested cash is non-negative at every
simulation step. -/
def UninvestedNonneg (w : List SimRow) (x : ℚ) : Prop :=
  ∀ k, k ≤ w.length - 1 → 0 ≤ (stepState w x k).uninvested_cash

/-- C9: for every valid window, fraction in `[0, 1]` and non-negative
daily short rates, the uninvested cash stays non-negative at every
simulation step: the `0 < uninvested_cash` guard, the fact that the
daily investment is the initial uninvested balance divided by
`len(window) - 1`, and accrual at non-negative rates together ensure the
balance is never overdrawn. -/
theorem uninvested_stays_nonneg (w : List SimRow) (x : ℚ) (hw : 2 ≤ w.length)
    (hx0 : 0 ≤ x) (hx1 : x ≤ 1)
    (hlib : ∀ i, i < w.length → 0 ≤ (w.getD i default).libor_daily) :
    UninvestedNonneg w x := by
  intro k hk
  have h := uninvested_lower w x hw hx1 hlib k hk
  have h0 : 0 ≤ ((w.length - 1 - k : Nat) : ℚ) * daily_investment w x :=
    mul_nonneg (Nat.cast_nonneg _) (daily_investment_nonneg w x hx1)
  linarith

/-- Witness for C9 on the concrete 3-row window. -/
theorem uninvested_stays_nonneg_witness :
    (2 ≤ winC2.length ∧ (0 : ℚ) ≤ 1/2 ∧ (1 : ℚ)/2 ≤ 1 ∧
      (∀ i, i < winC2.length → 0 ≤ (winC2.getD i default).libor_daily)) ∧
      UninvestedNonneg winC2 (1/2) := by
  have hlib : ∀ i, i < winC2.length → 0 ≤ (winC2.getD i default).libor_daily := by
    intro i hi
    have hi3 : i < 3 := by
      revert hi
      norm_num [winC2, eraseUndef, derive, deriveTail, loadData, sortByDate,
        insertByDate, Date.key]
    interval_cases i <;>
      norm_num [winC2, eraseUndef, derive, deriveTail, loadData, sortByDate,
        insertByDate, Date.key, List.getD]
  exact ⟨⟨by decide, by norm_num, by norm_num, hlib⟩,
    uninvested_stays_nonneg winC2 (1/2) (by decide) (by norm_num) (by norm_num) hlib⟩

/-! ## C4: the sampling driver -/

lemma range_filter_mod (N : Nat) (hN : 1 ≤ N) :
    ∀ len, (List.range len).filter (fun i => i % N == 0) = rangeStep len N := by
  intro len
  induction len with
  | zero => simp [rangeStep, Nat.div_eq_of_lt (by omega : N - 1 < N)]
  | succ n ih =>
    rw [List.range_succ, List.filter_append, ih]
    by_cases h : n % N = 0
    · obtain ⟨q, rfl⟩ : ∃ q, n = N * q :=
        ⟨n / N, by have := Nat.div_add_mod n N; omega⟩
      have h1 : (N * q + 1 + N - 1) / N = q + 1 := by
        have e : N * q + 1 + N - 1 = N * (q + 1) := by
          have e2 : N * (q + 1) = N * q + N := by ring
          omega
        rw [e, Nat.mul_div_cancel_left _ (by omega : 0 < N)]
      have h2 : (N * q + N - 1) / N = q := by
        have e : N * q + N - 1 = N * q + (N - 1) := by omega
        rw [e, Nat.mul_add_div (by omega : 0 < N),
          Nat.div_eq_of_lt (by omega : N - 1 < N)]
        omega
      unfold rangeStep
      rw [h1, h2, List.range_succ, List.map_append]
      simp [h, Nat.mul_comm]
    · have hq := Nat.div_add_mod n N
      have hrlt : n % N < N := Nat.mod_lt _ (by omega)
      have h1 : (n + 1 + N - 1) / N = (n + N - 1) / N := by
        have e1 : n + 1 + N - 1 = N * (n / N) + (n % N + N) := by omega
        have e2 : n + N - 1 = N * (n / N) + (n % N + N - 1) := by omega
        rw [e1, e2, Nat.mul_add_div (by omega), Nat.mul_add_div (by omega)]
        have d1 : (n % N + N) / N = 1 := by
          rw [Nat.add_div_right _ (by omega), Nat.div_eq_of_lt hrlt]
        have d2 : (n % N + N - 1) / N = 1 := by
          have e3 : n % N + N - 1 = (n % N - 1) + N := by omega
          rw [e3, Nat.add_div_right _ (by omega),
            Nat.div_eq_of_lt (by omega : n % N - 1 < N)]
        omega
      unfold rangeStep
      rw [h1]
      simp [h]

lemma filterMap_if {α β : Type} (p : α → Prop) [DecidablePred p] (g : α → β) :
    ∀ l : List α,
      (l.filterMap fun a => if p a then some (g a) else none) =
        (l.filter fun a => decide (p a)).map g := by
  intro l
  induction l with
  | nil => rfl
  | cons a t ih =>
    by_cases h : p a <;>
      simp [List.filterMap_cons, List.filter_cons, h, ih]

/-- C4: for every fraction, the sampling loop uses exactly the start
indices `0, N, 2N, …` (`rangeStep` equals the filtered multiples of the
stride), each start's window is the slice of observations with date in
`[start_date, start_date + 9 calendar months]` (`periodData`, built with
calendar-month arithmetic `Date.addMonths`), windows with fewer than 2
observations contribute nothing, and the result collection is exactly
one result per valid window in ascending start order, so its length is
the number of valid windows. -/
theorem sampling_driver_refines (d : List DerivedRow) (x : ℚ) (N : Nat)
    (hN : 1 ≤ N) :
    runFraction d x N = specDriver d x N ∧
    rangeStep d.length N = specSampledStarts d.length N ∧
    (runFraction d x N).length = (specValidStarts d N).length := by
  have h1 : rangeStep d.length N = specSampledStarts d.length N :=
    (range_filter_mod N hN d.length).symm
  have h2 : runFraction d x N = specDriver d x N := by
    simp only [runFraction, specDriver, specValidStarts]
    rw [← h1, filterMap_if (fun idx => 2 ≤ (periodData d idx).length)
      (fun idx => simulate (eraseUndef 0 (periodData d idx)) x)]
  refine ⟨h2, h1, ?_⟩
  rw [h2]
  unfold specDriver
  rw [List.length_map]

/-- Witness for C4 on the 3-row series with stride 2. -/
theorem sampling_driver_refines_witness :
    1 ≤ 2 ∧
      (runFraction (derive rowsC2) (1/2) 2 = specDriver (derive rowsC2) (1/2) 2 ∧
        rangeStep (derive rowsC2).length 2 =
          specSampledStarts (derive rowsC2).length 2 ∧
        (runFraction (derive rowsC2) (1/2) 2).length =
          (specValidStarts (derive rowsC2) 2).length) :=
  ⟨by decide, sampling_driver_refines (derive rowsC2) (1/2) 2 (by decide)⟩

/-! ## C3: no fail-fast on invalid series -/

/-- An unsorted 2-row series (dates out of order). -/
def rowsC3 : List Row :=
  [ { date := ⟨2020, 1, 2⟩, spx := 110, libor := 0 },
    { date := ⟨2020, 1, 1⟩, spx := 100, libor := 0 } ]

/-- C3 counterexample: on an unsorted input series the program does not
fail fast — the loader silently sorts it (line 11) and the sampling loop
then performs a simulation, so a Window Simulator invocation does occur
and everything downstream proceeds. -/
theorem invalid_series_counterexample :
    (rowsC3.getD 1 default).date.key < (rowsC3.getD 0 default).date.key ∧
      (pipeline rowsC3 (1/2) 1).length = 1 := by
  constructor
  · decide
  · decide

lemma insertByDate_length (r : Row) :
    ∀ l : List Row, (insertByDate r l).length = l.length + 1 := by
  intro l
  induction l with
  | nil => rfl
  | cons s rest ih =>
    unfold insertByDate
    split
    · rfl
    · simp only [List.length_cons, ih]

lemma sortByDate_length : ∀ rows : List Row,
    (sortByDate rows).length = rows.length := by
  intro rows
  induction rows with
  | nil => rfl
  | cons r rest ih =>
    unfold sortByDate
    rw [insertByDate_length, ih]
    rfl

lemma deriveTail_length :
    ∀ (l : List Row) (prev : Row), (deriveTail prev l).length = l.length := by
  intro l
  induction l with
  | nil => intro prev; rfl
  | cons a t ih =>
    intro prev
    unfold deriveTail
    simp only [List.length_cons, ih]

lemma derive_length (rows : List Row) : (derive rows).length = rows.length := by
  cases rows with
  | nil => rfl
  | cons a t =>
    unfold derive
    simp only [List.length_cons, deriveTail_length]

lemma periodData_length_le (d : List DerivedRow) (idx : Nat) :
    (periodData d idx).length ≤ d.length :=
  List.length_filter_le _ _

lemma runFraction_nil_of_short (d : List DerivedRow) (x : ℚ) (N : Nat)
    (hN : 1 ≤ N) (hd : d.length < 2) : runFraction d x N = [] := by
  simp only [runFraction]
  rcases (by omega : d.length = 0 ∨ d.length = 1) with h | h
  · rw [h]
    have h0 : rangeStep 0 N = [] := by
      unfold rangeStep
      rw [Nat.div_eq_of_lt (by omega : 0 + N - 1 < N)]
      rfl
    rw [h0]
    rfl
  · rw [h]
    have h0 : rangeStep 1 N = [0] := by
      unfold rangeStep
      have e : (1 + N - 1) / N = 1 := by
        have e2 : 1 + N - 1 = N := by omega
        rw [e2, Nat.div_self (by omega)]
      have r1 : List.range 1 = [0] := by decide
      rw [e, r1]
      simp
    rw [h0]
    have hle := periodData_length_le d 0
    have hf : (if 2 ≤ (periodData d 0).length then
        some (simulate (eraseUndef 0 (periodData d 0)) x) else none) = none :=
      if_neg (by omega)
    simp [List.filterMap_cons, hf]

/-- C3 (amended): the loader sorts the series instead of rejecting an
unsorted one; when the loaded series is empty or has fewer than 2
observations, no window simulation occurs (every candidate window has
fewer than 2 observations, so the result collection is empty), but the
program does not fail fast: downstream aggregation still runs and
reports the undefined mean as NaN (`none`). -/
theorem short_series_no_simulation (rows : List Row) (x : ℚ) (N : Nat)
    (hN : 1 ≤ N) (hrows : rows.length < 2) :
    pipeline rows x N = [] ∧
      displayedMean (derive (loadData rows)) x N = none := by
  have hlen : (derive (loadData rows)).length < 2 := by
    rw [derive_length, loadData, sortByDate_length]
    exact hrows
  have h := runFraction_nil_of_short (derive (loadData rows)) x N hN hlen
  refine ⟨h, ?_⟩
  unfold displayedMean
  rw [h]
  rfl

/-- Witness for the amended C3 on a 1-row series. -/
theorem short_series_no_simulation_witness :
    (1 ≤ 1 ∧
        ([{ date := ⟨2020, 1, 1⟩, spx := 100, libor := 0 }] : List Row).length < 2) ∧
      (pipeline [{ date := ⟨2020, 1, 1⟩, spx := 100, libor := 0 }] (1/2) 1 = [] ∧
        displayedMean
          (derive (loadData [{ date := ⟨2020, 1, 1⟩, spx := 100, libor := 0 }]))
          (1/2) 1 = none) :=
  ⟨⟨le_refl 1, by decide⟩,
    short_series_no_simulation [{ date := ⟨2020, 1, 1⟩, spx := 100, libor := 0 }]
      (1/2) 1 (le_refl 1) (by decide)⟩

/-! ## C5: empty result collections -/

/-- A 2-row series whose observations lie 12 months apart, so every
horizon-bounded window has a single observation and is skipped. -/
def rowsC5 : List Row :=
  [ { date := ⟨2020, 1, 1⟩, spx := 100, libor := 1/100 },
    { date := ⟨2021, 1, 1⟩, spx := 110, libor := 1/100 } ]

/-- C5 counterexample: with `rowsC5` and stride 1 every window is
skipped, so the fraction's result collection is empty; the displayed
mean is indeed NaN (`none`), but no drawdown percentile is reported for
the fraction at all — its category contributes no plot rows and is
absent from the annotated categories — rather than being reported as
NaN as the claim states. -/
theorem empty_collection_counterexample :
    pipeline rowsC5 (1/2) 1 = [] ∧
      displayedMean (derive (loadData rowsC5)) (1/2) 1 = none ∧
      plotCats (plotRows (derive (loadData rowsC5)) [1/2] 1) = [] := by
  refine ⟨by decide, by decide, by decide⟩

/-- C5 (amended): if a fraction's result collection is empty, the
reported mean return is NaN (`none`), and the fraction is absent from
the plot categories, so no drawdown percentile annotation — in
particular no zero — is produced for it: the aggregation surfaces the
absence of data instead of coercing it to a zero statistic. -/
theorem empty_collection_surfaced (d : List DerivedRow) (x : ℚ) (N : Nat)
    (xs : List ℚ) (h : runFraction d x N = []) :
    displayedMean d x N = none ∧ x ∉ plotCats (plotRows d xs N) := by
  constructor
  · unfold displayedMean
    rw [h]
    rfl
  · intro hmem
    rw [plotCats, List.mem_dedup, List.mem_map] at hmem
    obtain ⟨p, hp, hfst⟩ := hmem
    rw [plotRows, List.mem_flatMap] at hp
    obtain ⟨z, hz, hp2⟩ := hp
    rw [List.mem_map] at hp2
    obtain ⟨r, hr, heq⟩ := hp2
    have hz1 : p.1 = z := by rw [← heq]
    have hzx : z = x := by rw [← hfst, hz1]
    rw [hzx, h] at hr
    exact List.not_mem_nil r hr

/-- Witness for the amended C5 on `rowsC5`. -/
theorem empty_collection_surfaced_witness :
    runFraction (derive (loadData rowsC5)) (1/2) 1 = [] ∧
      (displayedMean (derive (loadData rowsC5)) (1/2) 1 = none ∧
        (1/2 : ℚ) ∉ plotCats (plotRows (derive (loadData rowsC5)) [1/2] 1)) := by
  have h : runFraction (derive (loadData rowsC5)) (1/2) 1 = [] := by decide
  exact ⟨h, empty_collection_surfaced (derive (loadData rowsC5)) (1/2) 1 [1/2] h⟩

/-! ## C10: the undefined first return is never read -/

lemma deriveTail_isSome :
    ∀ (l : List Row) (prev : Row) (r : DerivedRow),
      r ∈ deriveTail prev l → r.spx_return.isSome = true := by
  intro l
  induction l with
  | nil =>
    intro prev r h
    cases h
  | cons a t ih =>
    intro prev r h
    rcases List.mem_cons.mp h with h1 | h2
    · rw [h1]
      rfl
    · exact ih a r h2

lemma derive_none_head (rows : List Row) (r : DerivedRow)
    (h : r ∈ derive rows) :
    r.spx_return.isSome = true ∨ r.date = (rows.headD default).date := by
  cases rows with
  | nil => cases h
  | cons a t =>
    rcases List.mem_cons.mp h with h1 | h2
    · right
      rw [h1]
      rfl
    · left
      exact deriveTail_isSome t a r h2

lemma deriveTail_dates :
    ∀ (l : List Row) (prev : Row),
      (deriveTail prev l).map (fun r => r.date.key) =
        l.map (fun r => r.date.key) := by
  intro l
  induction l with
  | nil => intro prev; rfl
  | cons a t ih =>
    intro prev
    unfold deriveTail
    simp only [List.map_cons, ih]

lemma derive_dates (rows : List Row) :
    (derive rows).map (fun r => r.date.key) = rows.map (fun r => r.date.key) := by
  cases rows with
  | nil => rfl
  | cons a t =>
    unfold derive
    simp only [List.map_cons, deriveTail_dates]

lemma derive_pairwise (rows : List Row)
    (hs : List.Pairwise (fun a b : Row => a.date.key < b.date.key) rows) :
    List.Pairwise (fun a b : DerivedRow => a.date.key < b.date.key) (derive rows) := by
  have h1 : List.Pairwise (fun a b : Nat => a < b) (rows.map fun r => r.date.key) :=
    List.pairwise_map.mpr hs
  rw [← derive_dates] at h1
  exact List.pairwise_map.mp h1

lemma pairwise_head_le (d : List DerivedRow)
    (hp : List.Pairwise (fun a b : DerivedRow => a.date.key < b.date.key) d)
    (idx : Nat) (hidx : idx < d.length) :
    (d.headD default).date.key ≤ (d.getD idx default).date.key := by
  cases d with
  | nil => simp at hidx
  | cons a t =>
    rcases Nat.eq_zero_or_pos idx with h0 | hpos
    · subst h0
      exact le_refl _
    · have hlt := List.pairwise_iff_get.mp hp ⟨0, by omega⟩ ⟨idx, hidx⟩
        (Fin.mk_lt_mk.mpr hpos)
      rw [List.getD_eq_getElem _ _ hidx]
      exact le_of_lt hlt

lemma periodData_mem (d : List DerivedRow) (idx : Nat) (r : DerivedRow)
    (h : r ∈ periodData d idx) :
    r ∈ d ∧ (d.getD idx default).date.key ≤ r.date.key := by
  simp only [periodData, List.mem_filter, Bool.and_eq_true,
    decide_eq_true_eq] at h
  refine ⟨h.1, ?_⟩
  exact h.2.1

lemma slice_tail_isSome (rows : List Row)
    (hs : List.Pairwise (fun a b : Row => a.date.key < b.date.key) rows)
    (idx : Nat) (hidx : idx < rows.length) (i : Nat) (hi1 : 1 ≤ i)
    (hi : i < (periodData (derive rows) idx).length) :
    ((periodData (derive rows) idx).get ⟨i, hi⟩).spx_return.isSome = true := by
  have hp : List.Pairwise (fun a b : DerivedRow => a.date.key < b.date.key)
      (derive rows) := derive_pairwise rows hs
  have hsub : (periodData (derive rows) idx).Sublist (derive rows) := by
    simp only [periodData]
    exact List.filter_sublist _
  have hppd : List.Pairwise (fun a b : DerivedRow => a.date.key < b.date.key)
      (periodData (derive rows) idx) := List.Pairwise.sublist hsub hp
  have h0len : 0 < (periodData (derive rows) idx).length := by omega
  by_contra hnone
  have hmem : (periodData (derive rows) idx).get ⟨i, hi⟩ ∈
      periodData (derive rows) idx := List.get_mem _ i hi
  have hmem0 : (periodData (derive rows) idx).get ⟨0, h0len⟩ ∈
      periodData (derive rows) idx := List.get_mem _ 0 h0len
  have hmem_d : (periodData (derive rows) idx).get ⟨i, hi⟩ ∈ derive rows :=
    hsub.subset hmem
  rcases derive_none_head rows _ hmem_d with hsome | hhead
  · exact hnone hsome
  have hfe := (periodData_mem (derive rows) idx _ hmem).2
  have hfe0 := (periodData_mem (derive rows) idx _ hmem0).2
  have hlt : ((periodData (derive rows) idx).get ⟨0, h0len⟩).date.key <
      ((periodData (derive rows) idx).get ⟨i, hi⟩).date.key :=
    List.pairwise_iff_get.mp hppd ⟨0, h0len⟩ ⟨i, hi⟩ (Fin.mk_lt_mk.mpr (by omega))
  have hidx2 : idx < (derive rows).length := by
    rw [derive_length]
    exact hidx
  have hhead_le : ((derive rows).headD default).date.key ≤
      ((derive rows).getD idx default).date.key :=
    pairwise_head_le (derive rows) hp idx hidx2
  have hhd : ((periodData (derive rows) idx).get ⟨i, hi⟩).date.key =
      ((derive rows).headD default).date.key := by
    rw [hhead]
    cases rows with
    | nil => simp at hidx
    | cons a t => rfl
  omega

lemma simSteps_congr (w w' : List SimRow) (d : ℚ) (s : PortfolioState)
    (hret : ∀ i, 1 ≤ i →
      (w'.getD i default).spx_return = (w.getD i default).spx_return)
    (hlib : ∀ i, (w'.getD i default).libor_daily = (w.getD i default).libor_daily) :
    ∀ k, simSteps w' d s k = simSteps w d s k := by
  intro k
  induction k with
  | zero => rfl
  | succ n ih =>
    simp only [simSteps]
    rw [ih, hret (n + 1) (by omega), hlib n]

lemma simulate_congr (w w' : List SimRow) (hlen : w'.length = w.length)
    (hret : ∀ i, 1 ≤ i →
      (w'.getD i default).spx_return = (w.getD i default).spx_return)
    (hlib : ∀ i, (w'.getD i default).libor_daily = (w.getD i default).libor_daily)
    (x : ℚ) : simulate w' x = simulate w x := by
  have hd : daily_investment w' x = daily_investment w x := by
    unfold daily_investment num_invest_days
    rw [hlen]
  have hsteps := simSteps_congr w w' (daily_investment w x) (initState x) hret hlib
  simp only [simulate, finalState, stepState, hlen, hd, hsteps]

lemma eraseUndef_length (j : ℚ) (w : List DerivedRow) :
    (eraseUndef j w).length = w.length := by
  simp [eraseUndef]

lemma eraseUndef_getD_lib (j : ℚ) (w : List DerivedRow) (i : Nat) :
    ((eraseUndef j w).getD i default).libor_daily =
      (w.getD i default).libor_daily := by
  rcases Nat.lt_or_ge i w.length with h | h
  · rw [List.getD_eq_getElem _ _ (by rw [eraseUndef_length]; exact h),
      List.getD_eq_getElem _ _ h]
    simp [eraseUndef]
  · rw [List.getD_eq_default _ _ (by rw [eraseUndef_length]; exact h),
      List.getD_eq_default _ _ h]
    rfl

lemma eraseUndef_getD_ret_eq (j j' : ℚ) (w : List DerivedRow) (i : Nat)
    (h : ∀ hi : i < w.length, (w.get ⟨i, hi⟩).spx_return.isSome = true) :
    ((eraseUndef j w).getD i default).spx_return =
      ((eraseUndef j' w).getD i default).spx_return := by
  rcases Nat.lt_or_ge i w.length with hlt | hge
  · obtain ⟨v, hv⟩ := Option.isSome_iff_exists.mp (h hlt)
    rw [List.get_eq_getElem] at hv
    rw [List.getD_eq_getElem _ _ (by rw [eraseUndef_length]; exact hlt),
      List.getD_eq_getElem _ _ (by rw [eraseUndef_length]; exact hlt)]
    simp [eraseUndef, hv]
  · rw [List.getD_eq_default _ _ (by rw [eraseUndef_length]; exact hge),
      List.getD_eq_default _ _ (by rw [eraseUndef_length]; exact hge)]

/-- C10: for a well-formed input series (strictly increasing dates), the
simulation result of any sampled window is independent of the value
substituted for the undefined `pct_change` return of the first series
row: the simulator reads `SPX_return` only at window positions
`1 … len(window) - 1`, and each such position corresponds to a series
row with a predecessor, so the undefined first return never propagates
into any trajectory value, total return or maximum drawdown. -/
theorem undefined_return_not_propagated (rows : List Row)
    (hs : List.Pairwise (fun a b : Row => a.date.key < b.date.key) rows)
    (idx : Nat) (hidx : idx < rows.length) (x j j' : ℚ) :
    simulate (eraseUndef j (periodData (derive rows) idx)) x =
      simulate (eraseUndef j' (periodData (derive rows) idx)) x := by
  apply simulate_congr
  · rw [eraseUndef_length, eraseUndef_length]
  · intro i hi1
    exact eraseUndef_getD_ret_eq j j' (periodData (derive rows) idx) i
      (fun hlt => slice_tail_isSome rows hs idx hidx i hi1 hlt)
  · intro i
    rw [eraseUndef_getD_lib, eraseUndef_getD_lib]

/-- Witness for C10 on the sorted 3-row series, start index 0, junk
values 3 and 7. -/
theorem undefined_return_not_propagated_witness :
    (List.Pairwise (fun a b : Row => a.date.key < b.date.key) rowsC2 ∧
        0 < rowsC2.length) ∧
      simulate (eraseUndef 3 (periodData (derive rowsC2) 0)) (1/2) =
        simulate (eraseUndef 7 (periodData (derive rowsC2) 0)) (1/2) :=
  ⟨⟨by decide, by decide⟩,
    undefined_return_not_propagated rowsC2 (by decide) 0 (by decide) (1/2) 3 7⟩
